import Mathlib

/-!
Verification of the WebP converter server (`src/server.js`).

The file shallowly embeds the helpers and the request-handling logic of the
server: the filename sanitizer, Node's `path.parse(..).name` extraction, the
query-parameter clamp/boolean parsing, the WebP option assembly, the
response-mode selection, the zip/multipart response bodies, and the
limited-concurrency mapper `mapWithLimit` (as a small-step scheduler over the
worker pool, since the JS function interleaves `await`-suspended workers).

Strings are modelled as sequences of Unicode characters (JS works on UTF-16
code units; the difference only shows up on astral code points, which none of
the verified properties depend on).  Byte buffers are `List UInt8`.  The
external `sharp` codec is an abstract parameter `Encoder`; JS `Number` is
modelled on its integer fragment (all verified inputs are integers or NaN).
-/

namespace WebpServer

open Relation

/-! ## Name sanitizer (`sanitizeFilename`, server.js lines 28-32) -/

/-- Characters replaced by `-`: the regex class `[/\\?%*:|"<>]`. -/
def isUnsafeChar (c : Char) : Bool :=
  c = '/' || c = '\\' || c = '?' || c = '%' || c = '*' || c = ':' ||
  c = '|' || c = '"' || c = '<' || c = '>'

/-- JavaScript `\s` character class (whitespace and line terminators). -/
def isJsSpace (c : Char) : Bool :=
  c = ' ' || c = '\t' || c = '\n' || c = '\u000b' || c = '\u000c' || c = '\r' ||
  c = ' ' || c = ' ' || (0x2000 ≤ c.toNat && c.toNat ≤ 0x200a) ||
  c = ' ' || c = ' ' || c = ' ' || c = ' ' ||
  c = '　' || c = '﻿'

/-- `.replace(/\s+/g, '_')`: each maximal whitespace run becomes one `_`.
The boolean flag records whether the previous character was whitespace. -/
def collapseWsAux : Bool → List Char → List Char
  | _, [] => []
  | prevWs, c :: cs =>
    if isJsSpace c then
      if prevWs then collapseWsAux true cs
      else '_' :: collapseWsAux true cs
    else c :: collapseWsAux false cs

/-- `sanitizeFilename` from server.js: default `'image'` for a falsy name,
replace unsafe characters by `-`, collapse whitespace runs to `_`,
then `.slice(0, 120)`. -/
def sanitizeFilename (name : String) : String :=
  let n := if name = "" then "image" else name
  let replaced := n.toList.map (fun c => if isUnsafeChar c then '-' else c)
  String.mk ((collapseWsAux false replaced).take 120)

/-! ## Node `path.parse(p).name` (used by `changeExtToWebp` and the
error-entry names).  On Linux, Node uses the POSIX rules: the base name is
the part after the last `/` once trailing slashes are dropped; the name is
the base without its extension, where a base with no dot, a base whose only
dot is its first character, and the base `..` have no extension. -/

/-- The POSIX base name: drop trailing `/`s, then take the suffix after the
last remaining `/`. -/
def posixBase (p : String) : String :=
  let rs := p.toList.reverse.dropWhile (fun c => c = '/')
  String.mk (rs.takeWhile (fun c => c ≠ '/')).reverse

/-- Position of the last `.` in the list, if any. -/
def lastDotPos : List Char → Option Nat
  | [] => none
  | c :: cs =>
    match lastDotPos cs with
    | some d => some (d + 1)
    | none => if c = '.' then some 0 else none

/-- `path.parse(p).name` (POSIX). -/
def parseName (p : String) : String :=
  let base := posixBase p
  let cs := base.toList
  match lastDotPos cs with
  | none => base
  | some d => if d = 0 ∨ cs = ['.', '.'] then base else String.mk (cs.take d)

/-- JavaScript `a || b` for strings: the empty string is falsy (the model also
stands in for an `undefined` original name). -/
def jsOr (a b : String) : String := if a = "" then b else a

/-- `changeExtToWebp` from server.js lines 34-37. -/
def changeExtToWebp (filename : String) : String :=
  sanitizeFilename (jsOr (parseName filename) "image") ++ ".webp"

/-! ## Option parsing (`parseBool`, `clamp`, server.js lines 53-64) -/

/-- ASCII lower-casing, as used on the plain ASCII mode/boolean tokens the
server compares against (`String.prototype.toLowerCase`). -/
def jsToLower (s : String) : String := String.mk (s.toList.map Char.toLower)

/-- JS string trimming (the whitespace set of `\s`). -/
def jsTrim (s : String) : String :=
  String.mk (((s.toList.dropWhile isJsSpace).reverse.dropWhile isJsSpace).reverse)

/-- Value of a non-empty all-digit character list, `none` otherwise. -/
def digitsVal (cs : List Char) : Option Nat :=
  if cs = [] then none
  else
    cs.foldl
      (fun acc c =>
        match acc with
        | none => none
        | some a => if c.isDigit then some (a * 10 + (c.toNat - 48)) else none)
      (some 0)

/-- The integer fragment of JavaScript `Number(string)`: trimmed empty string
is `0`, an optionally signed decimal numeral is its value, anything else is
NaN (`none`).  (Fractional/exponent/hex forms do not occur in the verified
inputs.) -/
def jsNumberInt (s : String) : Option Int :=
  let t := jsTrim s
  if t = "" then some 0
  else
    match t.toList with
    | '+' :: ds => (digitsVal ds).map Int.ofNat
    | '-' :: ds => (digitsVal ds).map (fun n => -(n : Int))
    | ds => (digitsVal ds).map Int.ofNat

/-- `clamp(num, min, max, def)` from server.js lines 60-64: a finite number is
clamped into `[lo, hi]`, otherwise the default is returned (`none` models an
`undefined` default, as used for `alphaQuality`; `none` input models an absent
query parameter, `Number(undefined)` being NaN). -/
def clamp (num : Option String) (lo hi : Int) (dflt : Option Int) : Option Int :=
  match num with
  | none => dflt
  | some s =>
    match jsNumberInt s with
    | some n => some (min hi (max lo n))
    | none => dflt

/-- `parseBool(val, def)` from server.js lines 53-58 (query values are
strings; `none` models an absent parameter). -/
def parseBool (val : Option String) (dflt : Bool) : Bool :=
  match val with
  | none => dflt
  | some v =>
    let s := jsToLower v
    s == "1" || s == "true" || s == "yes" || s == "on"

/-! ## Conversion options and the codec adapter
(`convertBufferToWebp`, server.js lines 39-51) -/

/-- Defaults from the config block (env defaults, lines 16-17). -/
def DEFAULT_QUALITY : Int := 80

def DEFAULT_EFFORT : Int := 4

def CONVERT_CONCURRENCY : Nat := 2

/-- The per-request `convertOpts` record (line 133).  `quality`, `alphaQuality`
and `effort` are `Option Int` because `clamp` can yield `undefined` when the
default is `undefined`; the resolver always fills `quality` and `effort`. -/
structure ConvertOpts where
  quality : Option Int
  lossless : Bool
  nearLossless : Bool
  alphaQuality : Option Int
  effort : Option Int
  smartSubsample : Bool
deriving DecidableEq

/-- The option object handed to `sharp(..).webp(webpOptions)` (lines 42-49). -/
structure WebpOptions where
  quality : Option Int
  lossless : Bool
  nearLossless : Bool
  alphaQuality : Option Int
  effort : Option Int
  smartSubsample : Bool
deriving DecidableEq

/-- The `webpOptions` object built inside `convertBufferToWebp`:
`quality: opts.lossless ? 100 : opts.quality`, booleans coerced, and the
`typeof === 'number'` guards modelled by the `Option` pass-through. -/
def webpOptionsOf (opts : ConvertOpts) : WebpOptions :=
  { quality := if opts.lossless then some 100 else opts.quality
    lossless := opts.lossless
    nearLossless := opts.nearLossless
    alphaQuality := opts.alphaQuality
    effort := opts.effort
    smartSubsample := opts.smartSubsample }

/-- The external `sharp` pipeline: rotation-normalizing encode of a byte
buffer under `WebpOptions`, failing with an error message.  Abstract
collaborator (out of scope of the core). -/
def Encoder : Type := List UInt8 → WebpOptions → Except String (List UInt8)

/-- `convertBufferToWebp(buffer, opts)`: passes the assembled
`webpOptions` to the encoder. -/
def convertBufferToWebp (enc : Encoder) (buffer : List UInt8) (opts : ConvertOpts) :
    Except String (List UInt8) :=
  enc buffer (webpOptionsOf opts)

/-! ## Query resolution (`/convert` handler prologue, lines 125-133) -/

/-- The query parameters of `POST /convert`; `none` is an absent parameter. -/
structure Query where
  output : Option String
  quality : Option String
  lossless : Option String
  nearLossless : Option String
  alphaQuality : Option String
  effort : Option String
  smartSubsample : Option String
deriving DecidableEq

/-- Lines 126-133 of the handler. -/
def resolveOptions (q : Query) : ConvertOpts :=
  { quality := clamp q.quality 1 100 (some DEFAULT_QUALITY)
    lossless := parseBool q.lossless false
    nearLossless := parseBool q.nearLossless false
    alphaQuality := clamp q.alphaQuality 0 100 none
    effort := clamp q.effort 0 6 (some DEFAULT_EFFORT)
    smartSubsample := parseBool q.smartSubsample false }

/-! ## Response-mode selection (lines 125, 136-140, 152, 187, 219-220) -/

inductive ResponseMode where
  | single
  | archive
  | multipart
  | reject
deriving DecidableEq

/-- The mode decision of the handler: `String(req.query.output || 'auto')`
(line 125, where both an absent parameter and the empty string are falsy and
fall back to `'auto'`), the `wantsZip`/`wantsMultipart` flags (lines
136-137) and the branch order single (line 140), zip (line 152), multipart
(line 187), fallback 400 (line 220). -/
def selectMode (output : Option String) (nfiles : Nat) : ResponseMode :=
  let outputMode := jsToLower (jsOr (output.getD "") "auto")
  let wantsZip := outputMode == "zip" || (outputMode == "auto" && decide (1 < nfiles))
  let wantsMultipart := outputMode == "multipart"
  if !wantsZip && !wantsMultipart && nfiles == 1 then .single
  else if wantsZip then .archive
  else if wantsMultipart then .multipart
  else .reject

/-! ## Uploaded files, archive entries, multipart body -/

/-- One uploaded file as seen by the handler (`req.files[i]`). -/
structure UploadFile where
  originalname : String
  buffer : List UInt8
deriving DecidableEq

inductive EntryContent where
  | bytes (b : List UInt8)
  | text (s : String)
deriving DecidableEq

/-- One entry appended to the zip archive. -/
structure ZipEntry where
  name : String
  content : EntryContent
deriving DecidableEq

/-- The body of the worker passed to `mapWithLimit` in the zip branch
(lines 170-180): convert, append the converted buffer under the new name; on
failure append `<base>__ERROR.txt` holding the error message. -/
def zipWorkerEntry (enc : Encoder) (opts : ConvertOpts) (f : UploadFile) : ZipEntry :=
  match convertBufferToWebp enc f.buffer opts with
  | Except.ok buf =>
    { name := changeExtToWebp (jsOr f.originalname "image.webp"), content := .bytes buf }
  | Except.error e =>
    { name := sanitizeFilename (parseName (jsOr f.originalname "image")) ++ "__ERROR.txt"
      content := .text (jsOr e "Conversion failed") }

/-- One chunk written to the response stream (`res.write` of a string or of a
`Buffer`). -/
inductive Chunk where
  | str (s : String)
  | bytes (b : List UInt8)
deriving DecidableEq

/-- The multipart branch (lines 192-215): for each file in order, write the
boundary line, the headers, a blank line, the body and a trailing CRLF;
after the loop, `res.end` writes the closing delimiter.  The failure branch
writes its `Content-Disposition` line with a bare `\n`, exactly as line 209
does. -/
def multipartWrites (enc : Encoder) (opts : ConvertOpts) (boundary : String) :
    List UploadFile → List Chunk
  | [] => [Chunk.str ("--" ++ boundary ++ "--\r\n")]
  | f :: fs =>
    (match convertBufferToWebp enc f.buffer opts with
     | Except.ok buf =>
       [Chunk.str ("--" ++ boundary ++ "\r\n"),
        Chunk.str "Content-Type: image/webp\r\n",
        Chunk.str ("Content-Disposition: attachment; filename=\"" ++
          changeExtToWebp (jsOr f.originalname "image.webp") ++ "\"\r\n"),
        Chunk.str ("Content-Length: " ++ toString buf.length ++ "\r\n\r\n"),
        Chunk.bytes buf,
        Chunk.str "\r\n"]
     | Except.error e =>
       let msg := jsOr e "Conversion failed"
       let errName := sanitizeFilename (parseName (jsOr f.originalname "image")) ++ "__ERROR.txt"
       let errBuf := msg.toUTF8.toList
       [Chunk.str ("--" ++ boundary ++ "\r\n"),
        Chunk.str "Content-Type: text/plain; charset=utf-8\r\n",
        Chunk.str ("Content-Disposition: attachment; filename=\"" ++ errName ++ "\"\n"),
        Chunk.str ("Content-Length: " ++ toString errBuf.length ++ "\r\n\r\n"),
        Chunk.bytes errBuf,
        Chunk.str "\r\n"]) ++ multipartWrites enc opts boundary fs

/-- The canonical part written for one file (used to state input-order
correspondence). -/
def multipartPart (enc : Encoder) (opts : ConvertOpts) (boundary : String)
    (f : UploadFile) : List Chunk :=
  multipartWrites enc opts boundary [f] |>.dropLast

/-! ## The `/convert` handler result (mode dispatch, lines 117-224)

The archive branch streams entries in completion order; the response model
records the multiset of entries (the completion-order list is produced by the
scheduler model below and shown to be a permutation of the input-order list).
`badRequest` stands for `res.status(400).json({error: msg})`, `serverError`
for the global 500 handler reached when the single-file conversion throws. -/

inductive ConvResponse where
  | badRequest (msg : String)
  | serverError
  | singleFile (name : String) (body : List UInt8)
  | archive (entries : Multiset ZipEntry)
  | multipart (chunks : List Chunk)
deriving DecidableEq

/-- The pure outcome of `POST /convert`: the guard of lines 119-121, the mode
decision, and the three response branches. -/
def convertRespond (enc : Encoder) (boundary : String) (q : Query)
    (files : List UploadFile) : ConvResponse :=
  match files with
  | [] => ConvResponse.badRequest "No files received. Use field name \"images\"."
  | f :: rest =>
    let opts := resolveOptions q
    match selectMode q.output (f :: rest).length with
    | .single =>
      match convertBufferToWebp enc f.buffer opts with
      | Except.ok buf =>
        ConvResponse.singleFile (changeExtToWebp (jsOr f.originalname "image.webp")) buf
      | Except.error _ => ConvResponse.serverError
    | .archive =>
      ConvResponse.archive ((f :: rest).map (zipWorkerEntry enc opts) : List ZipEntry)
    | .multipart =>
      ConvResponse.multipart (multipartWrites enc opts boundary (f :: rest))
    | .reject => ConvResponse.badRequest "Invalid output mode"

/-! ## `GET /health` (lines 101-103) -/

inductive JsonVal where
  | bool (b : Bool)
  | num (n : Int)
deriving DecidableEq

/-- `res.json({ ok: true, uptime: process.uptime() })`, given the process
uptime (in seconds; `process.uptime()` is never negative).  The first
component is the HTTP status (`res.json` leaves the default 200). -/
def healthHandler (uptime : Int) : Nat × List (String × JsonVal) :=
  (200, [("ok", JsonVal.bool true), ("uptime", JsonVal.num uptime)])

/-! ## `mapWithLimit` (server.js lines 67-79)

```js
async function mapWithLimit(items, limit, mapper) {
  const results = new Array(items.length);
  let i = 0;
  const workers = new Array(Math.min(limit, items.length)).fill(0).map(async () => {
    while (true) {
      const idx = i++;
      if (idx >= items.length) break;
      results[idx] = await mapper(items[idx], idx);
    }
  });
  await Promise.all(workers);
  return results;
}
```

The function spawns `min(limit, items.length)` async workers that share the
cursor `i`; each worker claims the next index (the read-increment of `i` is a
single synchronous step on the JS event loop), awaits the mapper on it, writes
the result into its reserved slot and loops; the call returns when every
worker has exited.  We model this as a small-step transition system: a worker
is `idle` (about to execute `const idx = i++`), `running idx` (suspended in
`await mapper(items[idx], idx)`) or `done` (its loop broke).  Any interleaving
of these steps is allowed — a superset of the schedules the event loop can
produce, so universally quantified theorems cover every real schedule.  The
`log` field records each completed mapper invocation in completion order; in
the zip branch this is exactly the sequence of `archive.append` calls the
worker callback performs. -/

inductive WStatus where
  | idle
  | running (idx : Nat)
  | done
deriving DecidableEq

def WStatus.isRunning : WStatus → Bool
  | .running _ => true
  | _ => false

structure MapState (β : Type) where
  counter : Nat
  workers : List WStatus
  results : List (Option β)
  log : List β

/-- State at the top of `mapWithLimit`: cursor 0, `min(limit, items.length)`
workers about to claim, no result slot filled. -/
def initState {α β : Type} (items : List α) (limit : Nat) : MapState β :=
  { counter := 0
    workers := List.replicate (Nat.min limit items.length) WStatus.idle
    results := List.replicate items.length none
    log := [] }

/-- One scheduler step of `mapWithLimit`. -/
inductive MapStep {α β : Type} (items : List α) (mapper : α → Nat → β) :
    MapState β → MapState β → Prop where
  | claim : ∀ (s : MapState β) (w : Nat) (hw : w < s.workers.length),
      s.workers.get ⟨w, hw⟩ = WStatus.idle →
      s.counter < items.length →
      MapStep items mapper s
        { counter := s.counter + 1
          workers := s.workers.set w (WStatus.running s.counter)
          results := s.results
          log := s.log }
  | exit : ∀ (s : MapState β) (w : Nat) (hw : w < s.workers.length),
      s.workers.get ⟨w, hw⟩ = WStatus.idle →
      items.length ≤ s.counter →
      MapStep items mapper s
        { counter := s.counter + 1
          workers := s.workers.set w WStatus.done
          results := s.results
          log := s.log }
  | finish : ∀ (s : MapState β) (w : Nat) (hw : w < s.workers.length)
      (idx : Nat) (hidx : idx < items.length),
      s.workers.get ⟨w, hw⟩ = WStatus.running idx →
      MapStep items mapper s
        { counter := s.counter
          workers := s.workers.set w WStatus.idle
          results := s.results.set idx (some (mapper (items.get ⟨idx, hidx⟩) idx))
          log := s.log ++ [mapper (items.get ⟨idx, hidx⟩) idx] }

/-- States one run of `mapWithLimit items limit mapper` can pass through. -/
def Reachable {α β : Type} (items : List α) (limit : Nat) (mapper : α → Nat → β)
    (s : MapState β) : Prop :=
  Relation.ReflTransGen (MapStep items mapper) (initState items limit) s

/-- Every worker's loop has broken: `Promise.all` resolves and the call
returns `results`. -/
def TerminalState {β : Type} (s : MapState β) : Prop :=
  ∀ w ∈ s.workers, w = WStatus.done

/-- Number of mapper invocations currently executing (workers suspended in
`await mapper(...)`). -/
def runningCount {β : Type} (s : MapState β) : Nat :=
  s.workers.countP (fun w => w.isRunning)

/-- The state in which all `items.length` workers run their own index at
once (reachable when `limit ≥ items.length`). -/
def fullState {α β : Type} (items : List α) (k : Nat) : MapState β :=
  { counter := k
    workers := (List.range items.length).map
      (fun j => if j < k then WStatus.running j else WStatus.idle)
    results := List.replicate items.length none
    log := [] }

/-! ### The fallible-worker variant

`mapWithLimit` has no `try`/`catch`: when `mapper` rejects, the worker's
promise rejects and `Promise.all(workers)` rejects, so the whole call rejects
instead of returning results.  `rejected` records the first rejection. -/

structure MapStateE (ε β : Type) where
  counter : Nat
  workers : List WStatus
  results : List (Option β)
  rejected : Option ε
deriving DecidableEq

def initStateE {α ε β : Type} (items : List α) (limit : Nat) : MapStateE ε β :=
  { counter := 0
    workers := List.replicate (Nat.min limit items.length) WStatus.idle
    results := List.replicate items.length none
    rejected := none }

inductive MapStepE {α ε β : Type} (items : List α) (mapper : α → Nat → Except ε β) :
    MapStateE ε β → MapStateE ε β → Prop where
  | claim : ∀ (s : MapStateE ε β) (w : Nat) (hw : w < s.workers.length),
      s.workers.get ⟨w, hw⟩ = WStatus.idle →
      s.counter < items.length →
      MapStepE items mapper s
        { counter := s.counter + 1
          workers := s.workers.set w (WStatus.running s.counter)
          results := s.results
          rejected := s.rejected }
  | exit : ∀ (s : MapStateE ε β) (w : Nat) (hw : w < s.workers.length),
      s.workers.get ⟨w, hw⟩ = WStatus.idle →
      items.length ≤ s.counter →
      MapStepE items mapper s
        { counter := s.counter + 1
          workers := s.workers.set w WStatus.done
          results := s.results
          rejected := s.rejected }
  | finishOk : ∀ (s : MapStateE ε β) (w : Nat) (hw : w < s.workers.length)
      (idx : Nat) (hidx : idx < items.length) (b : β),
      s.workers.get ⟨w, hw⟩ = WStatus.running idx →
      mapper (items.get ⟨idx, hidx⟩) idx = Except.ok b →
      MapStepE items mapper s
        { counter := s.counter
          workers := s.workers.set w WStatus.idle
          results := s.results.set idx (some b)
          rejected := s.rejected }
  | finishErr : ∀ (s : MapStateE ε β) (w : Nat) (hw : w < s.workers.length)
      (idx : Nat) (hidx : idx < items.length) (e : ε),
      s.workers.get ⟨w, hw⟩ = WStatus.running idx →
      mapper (items.get ⟨idx, hidx⟩) idx = Except.error e →
      MapStepE items mapper s
        { counter := s.counter
          workers := s.workers.set w WStatus.done
          results := s.results
          rejected := some (s.rejected.getD e) }

def ReachableE {α ε β : Type} (items : List α) (limit : Nat)
    (mapper : α → Nat → Except ε β) (s : MapStateE ε β) : Prop :=
  Relation.ReflTransGen (MapStepE items mapper) (initStateE items limit) s

def TerminalStateE {ε β : Type} (s : MapStateE ε β) : Prop :=
  ∀ w ∈ s.workers, w = WStatus.done

/-- What the caller of `mapWithLimit` observes once all worker promises have
settled: a rejection if any worker rejected, the results array otherwise. -/
def outcomeE {ε β : Type} (s : MapStateE ε β) : Except ε (List (Option β)) :=
  match s.rejected with
  | some e => Except.error e
  | none => Except.ok s.results

/-! ### Invariant of the scheduler -/

/-- The inductive invariant of `mapWithLimit`'s scheduler. -/
structure MapInv {α β : Type} (items : List α) (limit : Nat)
    (mapper : α → Nat → β) (s : MapState β) : Prop where
  workers_len : s.workers.length = Nat.min limit items.length
  results_len : s.results.length = items.length
  run_lt : ∀ (w : Nat) (hw : w < s.workers.length) (idx : Nat),
    s.workers.get ⟨w, hw⟩ = WStatus.running idx → idx < items.length ∧ idx < s.counter
  run_none : ∀ (w : Nat) (hw : w < s.workers.length) (idx : Nat),
    s.workers.get ⟨w, hw⟩ = WStatus.running idx → s.results.get? idx = some none
  run_inj : ∀ (w : Nat) (hw : w < s.workers.length) (w' : Nat) (hw' : w' < s.workers.length)
    (idx : Nat), w ≠ w' → s.workers.get ⟨w, hw⟩ = WStatus.running idx →
    s.workers.get ⟨w', hw'⟩ ≠ WStatus.running idx
  filled : ∀ (j : Nat) (hj : j < items.length), j < s.counter →
    (∃ (w : Nat) (hw : w < s.workers.length), s.workers.get ⟨w, hw⟩ = WStatus.running j) ∨
    s.results.get? j = some (some (mapper (items.get ⟨j, hj⟩) j))
  unfilled : ∀ (j : Nat), j < items.length → s.counter ≤ j → s.results.get? j = some none
  done_counter : ∀ (w : Nat) (hw : w < s.workers.length),
    s.workers.get ⟨w, hw⟩ = WStatus.done → items.length ≤ s.counter
  log_perm : s.log.Perm (s.results.filterMap id)

/-! ## Concrete instances used by witnesses and counterexamples -/

/-- An encoder that succeeds, returning the input bytes. -/
def okEncoder : Encoder := fun buf _ => Except.ok buf

/-- An encoder that always fails. -/
def failEncoder : Encoder := fun _ _ => Except.error "boom"

/-- A worker whose promise always rejects. -/
def boomMapper : Nat → Nat → Except String Nat := fun _ _ => Except.error "boom"

/-- A plain total worker. -/
def addMapper : Nat → Nat → Nat := fun a i => a + i

def sampleFile : UploadFile := { originalname := "photo.png", buffer := [1, 2, 3] }

/-- A fully-resolved options record (the resolver's output for an empty
query). -/
def sampleOpts : ConvertOpts :=
  { quality := some 80
    lossless := false
    nearLossless := false
    alphaQuality := none
    effort := some 4
    smartSubsample := false }

/-- A query whose `output` parameter is the unrecognized value `bogus`. -/
def bogusQuery : Query :=
  { output := some "bogus"
    quality := none
    lossless := none
    nearLossless := none
    alphaQuality := none
    effort := none
    smartSubsample := none }

/-- A query with `quality=0`. -/
def zeroQualityQuery : Query :=
  { output := none
    quality := some "0"
    lossless := none
    nearLossless := none
    alphaQuality := none
    effort := none
    smartSubsample := none }

/-- Terminal state of a one-item, limit-one run of the scheduler. -/
def singletonFinal {α β : Type} (a : α) (mapper : α → Nat → β) : MapState β :=
  { counter := 2
    workers := [WStatus.done]
    results := [some (mapper a 0)]
    log := [mapper a 0] }

/-- The state `mapWithLimit([7], 1, boomMapper)` ends in: the only worker's
promise rejected, `Promise.all` rejects, no result was stored. -/
def crashedE : MapStateE String Nat :=
  { counter := 1
    workers := [WStatus.done]
    results := [none]
    rejected := some "boom" }

/-! # Theorems -/

/-! ## Sanitizer lemmas -/

theorem mem_collapseWsAux {l : List Char} {b : Bool} {c : Char}
    (hc : c ∈ collapseWsAux b l) : c = '_' ∨ (c ∈ l ∧ isJsSpace c = false) := by
  induction l generalizing b with
  | nil => simp [collapseWsAux] at hc
  | cons d cs ih =>
    by_cases hd : isJsSpace d
    · rcases b with _ | _
      · simp only [collapseWsAux, hd, if_true, if_false] at hc
        rcases List.mem_cons.mp hc with h | h
        · exact Or.inl h
        · rcases ih h with h | ⟨hmem, hsp⟩
          · exact Or.inl h
          · exact Or.inr ⟨List.mem_cons_of_mem _ hmem, hsp⟩
      · simp only [collapseWsAux, hd, if_true] at hc
        rcases ih hc with h | ⟨hmem, hsp⟩
        · exact Or.inl h
        · exact Or.inr ⟨List.mem_cons_of_mem _ hmem, hsp⟩
    · simp only [collapseWsAux, hd, if_false] at hc
      rcases List.mem_cons.mp hc with h | h
      · exact Or.inr ⟨h ▸ List.mem_cons_self d cs, h ▸ Bool.eq_false_iff.mpr hd⟩
      · rcases ih h with h | ⟨hmem, hsp⟩
        · exact Or.inl h
        · exact Or.inr ⟨List.mem_cons_of_mem _ hmem, hsp⟩

theorem collapseWsAux_of_nospace {l : List Char}
    (h : ∀ c ∈ l, isJsSpace c = false) (b : Bool) : collapseWsAux b l = l := by
  induction l generalizing b with
  | nil => rfl
  | cons d cs ih =>
    have hd : isJsSpace d = false := h d (List.mem_cons_self d cs)
    simp only [collapseWsAux, hd, Bool.false_eq_true, if_false]
    exact congrArg (d :: ·) (ih (fun c hc => h c (List.mem_cons_of_mem _ hc)) false)

theorem collapseWsAux_ne_nil {l : List Char} (h : l ≠ []) :
    collapseWsAux false l ≠ [] := by
  match l with
  | [] => exact absurd rfl h
  | d :: cs =>
    by_cases hd : isJsSpace d <;> simp [collapseWsAux, hd]

theorem sanitizeFilename_ne_empty (x : String) : sanitizeFilename x ≠ "" := by
  unfold sanitizeFilename
  intro h
  have hdata : ((collapseWsAux false
      ((if x = "" then "image" else x).toList.map
        (fun c => if isUnsafeChar c then '-' else c))).take 120) = [] :=
    congrArg String.data h
  rcases List.take_eq_nil_iff.mp hdata with h120 | hnil
  · cases h120
  · refine collapseWsAux_ne_nil ?_ hnil
    intro hmap
    have : (if x = "" then "image" else x).toList = [] := by
      have := congrArg List.length hmap
      simpa using List.eq_nil_of_length_eq_zero (by simpa using this)
    by_cases hx : x = "" <;> simp [hx] at this
    exact hx (by cases x; simpa [String.toList] using congrArg String.mk this)

theorem sanitizeFilename_chars (x : String) :
    ∀ c ∈ (sanitizeFilename x).toList, isUnsafeChar c = false ∧ isJsSpace c = false := by
  intro c hc
  have hc' : c ∈ collapseWsAux false
      ((if x = "" then "image" else x).toList.map
        (fun c => if isUnsafeChar c then '-' else c)) :=
    List.mem_of_mem_take (by simpa [sanitizeFilename] using hc)
  rcases mem_collapseWsAux hc' with h | ⟨hmem, hsp⟩
  · subst h; exact ⟨by decide, by decide⟩
  · refine ⟨?_, hsp⟩
    rcases List.mem_map.mp hmem with ⟨d, _, hd⟩
    by_cases hud : isUnsafeChar d
    · simp only [hud, if_true] at hd; subst hd; decide
    · simp only [hud, if_false] at hd; subst hd
      exact Bool.eq_false_iff.mpr hud

theorem sanitizeFilename_length (x : String) : (sanitizeFilename x).length ≤ 120 := by
  have h : (sanitizeFilename x).length =
      ((collapseWsAux false
        ((if x = "" then "image" else x).toList.map
          (fun c => if isUnsafeChar c then '-' else c))).take 120).length := rfl
  rw [h, List.length_take]
  exact Nat.min_le_left _ _

theorem sanitizeFilename_idem (x : String) :
    sanitizeFilename (sanitizeFilename x) = sanitizeFilename x := by
  have hne : sanitizeFilename x ≠ "" := sanitizeFilename_ne_empty x
  have hch := sanitizeFilename_chars x
  conv_lhs => rw [sanitizeFilename]
  rw [if_neg hne]
  have hmap : (sanitizeFilename x).toList.map (fun c => if isUnsafeChar c then '-' else c) =
      (sanitizeFilename x).toList := by
    have hid : (sanitizeFilename x).toList.map (fun c => if isUnsafeChar c then '-' else c) =
        (sanitizeFilename x).toList.map id :=
      List.map_congr_left (fun c hc => by simp [(hch c hc).1])
    rw [hid, List.map_id]
  rw [hmap]
  rw [collapseWsAux_of_nospace (fun c hc => (hch c hc).2)]
  rw [List.take_of_length_le]
  · rfl
  · exact sanitizeFilename_length x

/-- C8: for every string `x`, `sanitize` is idempotent, its result contains
none of the characters `/ \ ? % * : | " < >` and no whitespace (hence no
whitespace run), its result is at most 120 characters long, and it is
non-empty. -/
theorem sanitizeFilename_spec (x : String) :
    sanitizeFilename (sanitizeFilename x) = sanitizeFilename x ∧
    (∀ c ∈ (sanitizeFilename x).toList, isUnsafeChar c = false ∧ isJsSpace c = false) ∧
    (sanitizeFilename x).length ≤ 120 ∧
    sanitizeFilename x ≠ "" :=
  ⟨sanitizeFilename_idem x, sanitizeFilename_chars x, sanitizeFilename_length x,
    sanitizeFilename_ne_empty x⟩

/-! ## List helpers for the scheduler proofs -/

theorem get_replicate_eq {γ : Type} (a : γ) {n w : Nat}
    (hw : w < (List.replicate n a).length) : (List.replicate n a).get ⟨w, hw⟩ = a :=
  List.eq_of_mem_replicate (List.get_mem _ _ _)

theorem get?_replicate_of_lt {γ : Type} (a : γ) {n m : Nat} (h : m < n) :
    (List.replicate n a).get? m = some a := by
  rw [List.get?_eq_getElem?]
  exact List.getElem?_replicate_of_lt h

theorem filterMap_id_replicate_none {γ : Type} (n : Nat) :
    (List.replicate n (none : Option γ)).filterMap id = [] := by
  induction n with
  | zero => rfl
  | succ n ih => simp [List.replicate_succ, List.filterMap_cons, ih]

theorem get_set_self_eq {γ : Type} (l : List γ) (i : Nat) (a : γ)
    (h : i < (l.set i a).length) : (l.set i a).get ⟨i, h⟩ = a := by
  simp

theorem get_set_of_ne {γ : Type} (l : List γ) {i j : Nat} (hne : i ≠ j) (a : γ)
    (h : j < (l.set i a).length) :
    (l.set i a).get ⟨j, h⟩ = l.get ⟨j, by simpa using h⟩ := by
  simp [hne]

theorem filterMap_id_set_some_perm {γ : Type} :
    ∀ (l : List (Option γ)) (i : Nat) (v : γ), l.get? i = some none →
      ((l.set i (some v)).filterMap id).Perm (v :: l.filterMap id)
  | [], i, v, h => by simp at h
  | a :: t, 0, v, h => by
    have ha : a = none := by simpa using h
    subst ha
    simp [List.filterMap_cons]
  | a :: t, i + 1, v, h => by
    have h' : t.get? i = some none := by simpa using h
    have ih := filterMap_id_set_some_perm t i v h'
    match a with
    | none => simpa [List.filterMap_cons] using ih
    | some b =>
      simpa [List.filterMap_cons] using (ih.cons b).trans (List.Perm.swap v b _)

/-! ## The scheduler invariant holds initially and is preserved -/

theorem mapInv_init {α β : Type} (items : List α) (limit : Nat)
    (mapper : α → Nat → β) : MapInv items limit mapper (initState items limit) := by
  constructor
  · simp [initState]
  · simp [initState]
  · intro w hw idx h
    have h3 := (get_replicate_eq WStatus.idle hw).symm.trans h
    simp at h3
  · intro w hw idx h
    have h3 := (get_replicate_eq WStatus.idle hw).symm.trans h
    simp at h3
  · intro w hw w' hw' idx _ h
    have h3 := (get_replicate_eq WStatus.idle hw).symm.trans h
    simp at h3
  · intro j hj hcnt
    exact absurd hcnt (Nat.not_lt_zero j)
  · intro j hj _
    exact get?_replicate_of_lt none hj
  · intro w hw h
    have h3 := (get_replicate_eq WStatus.idle hw).symm.trans h
    simp at h3
  · show List.Perm [] _
    rw [show (initState items limit : MapState β).results =
      List.replicate items.length none from rfl]
    rw [filterMap_id_replicate_none]

theorem mapInv_step {α β : Type} {items : List α} {limit : Nat}
    {mapper : α → Nat → β} {s t : MapState β} (inv : MapInv items limit mapper s)
    (hs : MapStep items mapper s t) : MapInv items limit mapper t := by
  cases hs with
  | claim w hw hidle hcnt =>
    refine ⟨?_, inv.results_len, ?_, ?_, ?_, ?_, ?_, ?_, inv.log_perm⟩
    · simpa using inv.workers_len
    · intro w' hw' idx h
      by_cases hww : w = w'
      · subst hww
        rw [get_set_self_eq] at h
        injection h with h'
        subst h'
        exact ⟨hcnt, Nat.lt_succ_self _⟩
      · rw [get_set_of_ne _ hww] at h
        obtain ⟨h1, h2⟩ := inv.run_lt w' _ idx h
        exact ⟨h1, Nat.lt_succ_of_lt h2⟩
    · intro w' hw' idx h
      by_cases hww : w = w'
      · subst hww
        rw [get_set_self_eq] at h
        injection h with h'
        subst h'
        exact inv.unfilled s.counter hcnt (Nat.le_refl _)
      · rw [get_set_of_ne _ hww] at h
        exact inv.run_none w' _ idx h
    · intro w1 hw1 w2 hw2 idx hne h1
      by_cases hw1w : w = w1
      · subst hw1w
        rw [get_set_self_eq] at h1
        injection h1 with h1'
        subst h1'
        rw [get_set_of_ne _ hne]
        intro hcon
        exact absurd (inv.run_lt w2 _ _ hcon).2 (Nat.lt_irrefl _)
      · by_cases hw2w : w = w2
        · subst hw2w
          rw [get_set_self_eq]
          intro hcon
          injection hcon with hc
          subst hc
          rw [get_set_of_ne _ hw1w] at h1
          exact absurd (inv.run_lt w1 _ _ h1).2 (Nat.lt_irrefl _)
        · rw [get_set_of_ne _ hw1w] at h1
          rw [get_set_of_ne _ hw2w]
          exact inv.run_inj w1 _ w2 _ idx hne h1
    · intro j hj hj1
      by_cases hjc : j < s.counter
      · rcases inv.filled j hj hjc with ⟨w'', hw'', hrun⟩ | hres
        · left
          have hwne : w ≠ w'' := by
            intro hEq
            subst hEq
            exact absurd (hidle.symm.trans hrun) (by simp)
          refine ⟨w'', by simpa using hw'', ?_⟩
          rw [get_set_of_ne _ hwne]
          exact hrun
        · right
          exact hres
      · have hj1' : j < s.counter + 1 := hj1
        have hjc' : j = s.counter := by omega
        subst hjc'
        left
        refine ⟨w, by simpa using hw, ?_⟩
        rw [get_set_self_eq]
    · intro j hj hge
      exact inv.unfilled j hj (Nat.le_of_succ_le hge)
    · intro w' hw' h
      by_cases hww : w = w'
      · subst hww
        rw [get_set_self_eq] at h
        simp at h
      · rw [get_set_of_ne _ hww] at h
        exact Nat.le_succ_of_le (inv.done_counter w' _ h)
  | exit w hw hidle hge =>
    refine ⟨?_, inv.results_len, ?_, ?_, ?_, ?_, ?_, ?_, inv.log_perm⟩
    · simpa using inv.workers_len
    · intro w' hw' idx h
      by_cases hww : w = w'
      · subst hww
        rw [get_set_self_eq] at h
        simp at h
      · rw [get_set_of_ne _ hww] at h
        obtain ⟨h1, h2⟩ := inv.run_lt w' _ idx h
        exact ⟨h1, Nat.lt_succ_of_lt h2⟩
    · intro w' hw' idx h
      by_cases hww : w = w'
      · subst hww
        rw [get_set_self_eq] at h
        simp at h
      · rw [get_set_of_ne _ hww] at h
        exact inv.run_none w' _ idx h
    · intro w1 hw1 w2 hw2 idx hne h1
      by_cases hw1w : w = w1
      · subst hw1w
        rw [get_set_self_eq] at h1
        simp at h1
      · by_cases hw2w : w = w2
        · subst hw2w
          rw [get_set_self_eq]
          simp
        · rw [get_set_of_ne _ hw1w] at h1
          rw [get_set_of_ne _ hw2w]
          exact inv.run_inj w1 _ w2 _ idx hne h1
    · intro j hj hj1
      have hjc : j < s.counter := by omega
      rcases inv.filled j hj hjc with ⟨w'', hw'', hrun⟩ | hres
      · left
        have hwne : w ≠ w'' := by
          intro hEq
          subst hEq
          exact absurd (hidle.symm.trans hrun) (by simp)
        refine ⟨w'', by simpa using hw'', ?_⟩
        rw [get_set_of_ne _ hwne]
        exact hrun
      · right
        exact hres
    · intro j hj hge'
      have hge'' : s.counter + 1 ≤ j := hge'
      exact inv.unfilled j hj (Nat.le_of_succ_le hge'')
    · intro w' hw' h
      exact Nat.le_succ_of_le hge
  | finish w hw idx hidx hrun =>
    have hidxcnt := inv.run_lt w hw idx hrun
    refine ⟨?_, ?_, ?_, ?_, ?_, ?_, ?_, ?_, ?_⟩
    · simpa using inv.workers_len
    · simpa using inv.results_len
    · intro w' hw' idx' h
      by_cases hww : w = w'
      · subst hww
        rw [get_set_self_eq] at h
        simp at h
      · rw [get_set_of_ne _ hww] at h
        exact inv.run_lt w' _ idx' h
    · intro w' hw' idx' h
      by_cases hww : w = w'
      · subst hww
        rw [get_set_self_eq] at h
        simp at h
      · rw [get_set_of_ne _ hww] at h
        have hne' : idx ≠ idx' := by
          intro hEq
          subst hEq
          exact (inv.run_inj w' _ w hw idx (fun hc => hww hc.symm) h) hrun
        rw [List.get?_set_ne _ _ hne']
        exact inv.run_none w' _ idx' h
    · intro w1 hw1 w2 hw2 idx' hne h1
      by_cases hw1w : w = w1
      · subst hw1w
        rw [get_set_self_eq] at h1
        simp at h1
      · by_cases hw2w : w = w2
        · subst hw2w
          rw [get_set_self_eq]
          simp
        · rw [get_set_of_ne _ hw1w] at h1
          rw [get_set_of_ne _ hw2w]
          exact inv.run_inj w1 _ w2 _ idx' hne h1
    · intro j hj hjc
      by_cases hjidx : j = idx
      · subst hjidx
        right
        rw [List.get?_set_eq_of_lt]
        rw [inv.results_len]
        exact hidx
      · rcases inv.filled j hj hjc with ⟨w'', hw'', hrun''⟩ | hres
        · by_cases hww'' : w'' = w
          · subst hww''
            have hji := hrun''.symm.trans hrun
            injection hji with hji'
            exact absurd hji' hjidx
          · left
            refine ⟨w'', by simpa using hw'', ?_⟩
            rw [get_set_of_ne _ (fun hc => hww'' hc.symm)]
            exact hrun''
        · right
          rw [List.get?_set_ne _ _ (fun hc : idx = j => hjidx hc.symm)]
          exact hres
    · intro j hj hge
      have hge0 : s.counter ≤ j := hge
      have hne' : idx ≠ j := by
        have h2 := hidxcnt.2
        omega
      rw [List.get?_set_ne _ _ hne']
      exact inv.unfilled j hj hge
    · intro w' hw' h
      by_cases hww : w = w'
      · subst hww
        rw [get_set_self_eq] at h
        simp at h
      · rw [get_set_of_ne _ hww] at h
        exact inv.done_counter w' _ h
    · have hnone := inv.run_none w hw idx hrun
      have h1 := filterMap_id_set_some_perm s.results idx
        (mapper (items.get ⟨idx, hidx⟩) idx) hnone
      exact ((List.perm_append_singleton _ _).trans (inv.log_perm.cons _)).trans h1.symm

theorem mapInv_reachable {α β : Type} {items : List α} {limit : Nat}
    {mapper : α → Nat → β} {s : MapState β}
    (h : Reachable items limit mapper s) : MapInv items limit mapper s := by
  induction h with
  | refl => exact mapInv_init items limit mapper
  | tail hsteps hstep ih => exact mapInv_step ih hstep

/-- In any terminal reachable-invariant state with a positive limit, every
result slot holds the mapper's value for its index. -/
theorem terminal_results {α β : Type} {items : List α} {limit : Nat}
    {mapper : α → Nat → β} {s : MapState β} (hlim : 1 ≤ limit)
    (inv : MapInv items limit mapper s) (ht : TerminalState s) :
    s.results.length = items.length ∧
    ∀ (j : Nat) (hj : j < items.length),
      s.results.get? j = some (some (mapper (items.get ⟨j, hj⟩) j)) := by
  refine ⟨inv.results_len, fun j hj => ?_⟩
  have hN : 0 < items.length := Nat.lt_of_le_of_lt (Nat.zero_le j) hj
  have hwpos : 0 < s.workers.length := by
    rw [inv.workers_len]
    exact Nat.le_min.mpr ⟨hlim, hN⟩
  have hdone : s.workers.get ⟨0, hwpos⟩ = WStatus.done := ht _ (List.get_mem _ _ _)
  have hcnt : items.length ≤ s.counter := inv.done_counter 0 hwpos hdone
  rcases inv.filled j hj (Nat.lt_of_lt_of_le hj hcnt) with ⟨w, hw, hrun⟩ | hres
  · have hwdone := ht _ (List.get_mem s.workers w hw)
    rw [hwdone] at hrun
    simp at hrun
  · exact hres

/-- The three-step schedule of `mapWithLimit([a], 1, mapper)`: the worker
claims index 0, finishes it, then exits. -/
theorem reach_singleton {α β : Type} (a : α) (mapper : α → Nat → β) :
    Reachable [a] 1 mapper (singletonFinal a mapper) := by
  have h1 : MapStep [a] mapper (initState [a] 1)
      { counter := 1, workers := [WStatus.running 0], results := [none], log := [] } :=
    MapStep.claim (initState [a] 1) 0 Nat.one_pos rfl Nat.one_pos
  have h2 : MapStep [a] mapper
      { counter := 1, workers := [WStatus.running 0], results := [none], log := [] }
      { counter := 1, workers := [WStatus.idle], results := [some (mapper a 0)],
        log := [mapper a 0] } :=
    @MapStep.finish α β [a] mapper
      { counter := 1, workers := [WStatus.running 0], results := [none], log := [] }
      0 Nat.one_pos 0 Nat.one_pos rfl
  have h3 : MapStep [a] mapper
      { counter := 1, workers := [WStatus.idle], results := [some (mapper a 0)],
        log := [mapper a 0] }
      (singletonFinal a mapper) :=
    @MapStep.exit α β [a] mapper
      { counter := 1, workers := [WStatus.idle], results := [some (mapper a 0)],
        log := [mapper a 0] }
      0 Nat.one_pos rfl (Nat.le_refl 1)
  exact Relation.ReflTransGen.tail
    (Relation.ReflTransGen.tail (Relation.ReflTransGen.tail Relation.ReflTransGen.refl h1) h2) h3

theorem terminal_singleton {α β : Type} (a : α) (mapper : α → Nat → β) :
    TerminalState (singletonFinal a mapper) := by
  intro w hw
  exact List.mem_singleton.mp hw

/-- At most `min limit N` (hence at most `limit`) mapper invocations are in
flight in any reachable state. -/
theorem runningCount_le {α β : Type} {items : List α} {limit : Nat}
    {mapper : α → Nat → β} {s : MapState β}
    (h : Reachable items limit mapper s) : runningCount s ≤ limit := by
  have inv := mapInv_reachable h
  calc runningCount s ≤ s.workers.length := List.countP_le_length _
    _ = Nat.min limit items.length := inv.workers_len
    _ ≤ limit := Nat.min_le_left _ _

/-- When every worker exists (`limit ≥ N`), the schedule in which worker `j`
claims index `j`, one after the other, reaches the all-running state. -/
theorem reach_fullState {α β : Type} (items : List α) (limit : Nat)
    (mapper : α → Nat → β) (hKN : items.length ≤ limit) :
    ∀ k, k ≤ items.length → Reachable items limit mapper (fullState items k) := by
  intro k
  induction k with
  | zero =>
    intro _
    have hinit : (initState items limit : MapState β) = fullState items 0 := by
      unfold initState fullState
      congr 1
      apply List.ext_get
      · simp
        omega
      · intro n h1 h2
        simp
    unfold Reachable
    rw [hinit]
  | succ k ih =>
    intro hk1
    have hkN : k < items.length := hk1
    have hreach := ih (Nat.le_of_succ_le hk1)
    refine Relation.ReflTransGen.tail hreach ?_
    have hwlen : k < (fullState items k : MapState β).workers.length := by
      simpa [fullState] using hkN
    have hidle : (fullState items k : MapState β).workers.get ⟨k, hwlen⟩ = WStatus.idle := by
      simp [fullState]
    have hcnt : (fullState items k : MapState β).counter < items.length := hkN
    have hstate :
        ({ counter := (fullState items k : MapState β).counter + 1
           workers := (fullState items k : MapState β).workers.set k
             (WStatus.running (fullState items k : MapState β).counter)
           results := (fullState items k : MapState β).results
           log := (fullState items k : MapState β).log } : MapState β) =
          fullState items (k + 1) := by
      unfold fullState
      congr 1
      apply List.ext_get
      · simp
      · intro n h1 h2
        by_cases hnk : n = k
        · subst hnk
          rw [get_set_self_eq]
          have hn : n < items.length := by simpa using h2
          simp [List.get_eq_getElem, hn]
        · rw [get_set_of_ne _ (fun hc => hnk hc.symm)]
          have hn : n < items.length := by simpa using h2
          by_cases hlt : n < k
          · simp [List.get_eq_getElem, hn, hlt, Nat.lt_succ_of_lt hlt]
          · have hlt' : ¬ n < k + 1 := by omega
            simp [List.get_eq_getElem, hn, hlt, hlt']
    rw [← hstate]
    exact MapStep.claim (fullState items k) k hwlen hidle hcnt

/-- In the all-running state every one of the `N` workers is inside a mapper
invocation. -/
theorem runningCount_fullState {α β : Type} (items : List α) :
    runningCount (fullState items items.length : MapState β) = items.length := by
  unfold runningCount fullState
  have hmm : (List.range items.length).map
        (fun j => if j < items.length then WStatus.running j else WStatus.idle) =
      (List.range items.length).map (fun j => WStatus.running j) :=
    List.map_congr_left (fun j hj => by simp [List.mem_range.mp hj])
  rw [hmm, List.countP_map]
  simp [Function.comp_def, WStatus.isRunning]

theorem filterMap_id_map_some {α β : Type} (g : α → β) (l : List α) :
    (l.map (fun a => some (g a))).filterMap id = l.map g := by
  induction l with
  | nil => rfl
  | cons a t ih => simp [List.filterMap_cons, ih]

/-- For an index-independent worker (as in the zip branch), a terminal run
has results equal to the input-order map, and its completion log (the
sequence of `archive.append` calls) is a permutation of that map. -/
theorem terminal_results_map {α β : Type} {items : List α} {limit : Nat} {g : α → β}
    {s : MapState β} (hlim : 1 ≤ limit)
    (hreach : Reachable items limit (fun a _ => g a) s) (hterm : TerminalState s) :
    s.results = items.map (fun a => some (g a)) ∧ s.log.Perm (items.map g) := by
  have inv := mapInv_reachable hreach
  have base := terminal_results hlim inv hterm
  have hres : s.results = items.map (fun a => some (g a)) := by
    apply List.ext_getElem?
    intro n
    by_cases hn : n < items.length
    · have h1 := base.2 n hn
      rw [List.get?_eq_getElem?] at h1
      rw [h1, List.getElem?_map, List.getElem?_eq_getElem hn]
      rfl
    · have hlen : items.length ≤ n := Nat.le_of_not_lt hn
      rw [List.getElem?_eq_none (by rw [base.1]; exact hlen),
        List.getElem?_eq_none (by rw [List.length_map]; exact hlen)]
  refine ⟨hres, ?_⟩
  have hlog := inv.log_perm
  rw [hres, filterMap_id_map_some] at hlog
  exact hlog

/-! ## Claim theorems for the bounded mapper -/

/-- C1: for every ordered list of items and every positive limit, any
complete run of `mapWithLimit` (a reachable state in which every worker has
exited, which is exactly when the call returns) yields exactly
`items.length` results, and slot `i` holds the value the worker produced for
`items[i]` — no index is skipped. -/
theorem mapWithLimit_results_complete {α β : Type} (items : List α) (limit : Nat)
    (mapper : α → Nat → β) (hlim : 1 ≤ limit) (s : MapState β)
    (hreach : Reachable items limit mapper s) (hterm : TerminalState s) :
    s.results.length = items.length ∧
    ∀ (j : Nat) (hj : j < items.length),
      s.results.get? j = some (some (mapper (items.get ⟨j, hj⟩) j)) :=
  terminal_results hlim (mapInv_reachable hreach) hterm

/-- Witness for C1: the one-item, limit-one run. -/
theorem mapWithLimit_results_complete_witness :
    (singletonFinal 5 addMapper).results.length = [5].length ∧
    (singletonFinal 5 addMapper).results.get? 0 = some (some (addMapper 5 0)) := by
  have h := mapWithLimit_results_complete [5] 1 addMapper (Nat.le_refl 1)
    (singletonFinal 5 addMapper) (reach_singleton 5 addMapper)
    (terminal_singleton 5 addMapper)
  exact ⟨h.1, h.2 0 Nat.one_pos⟩

/-- C2 counterexample: `mapWithLimit` itself catches nothing.  With a worker
whose promise rejects, the worker promise rejects, `Promise.all` rejects,
and the call's outcome is the rejection — no `Failure` result is produced
and the result slot stays empty, contradicting the claim that the bounded
mapper converts per-item failures into `Failure` results. -/
theorem mapWithLimit_rejects_on_worker_error :
    ReachableE [7] 1 boomMapper crashedE ∧ TerminalStateE crashedE ∧
    outcomeE crashedE = Except.error "boom" ∧ crashedE.results = [none] := by
  refine ⟨?_, ?_, rfl, rfl⟩
  · have h1 : MapStepE [7] boomMapper (initStateE [7] 1)
        { counter := 1, workers := [WStatus.running 0], results := [none],
          rejected := none } :=
      @MapStepE.claim Nat String Nat [7] boomMapper (initStateE [7] 1) 0
        Nat.one_pos rfl Nat.one_pos
    have h2 : MapStepE [7] boomMapper
        { counter := 1, workers := [WStatus.running 0], results := [none],
          rejected := none }
        crashedE :=
      @MapStepE.finishErr Nat String Nat [7] boomMapper
        { counter := 1, workers := [WStatus.running 0], results := [none],
          rejected := none }
        0 Nat.one_pos 0 Nat.one_pos "boom" rfl rfl
    exact Relation.ReflTransGen.tail
      (Relation.ReflTransGen.tail Relation.ReflTransGen.refl h1) h2
  · intro w hw
    exact List.mem_singleton.mp hw

/-- C2 (amended): per-item conversion failures are caught by the per-item
worker callback (the `try`/`catch` of the zip branch, lines 171-179), not by
`mapWithLimit`.  Through that catching worker, one item's conversion failure
yields exactly its `__ERROR.txt` Failure entry while every other item's slot
still receives its own result, and the mapper returns all N results. -/
theorem zipWorker_isolates_failures (enc : Encoder) (opts : ConvertOpts)
    (files : List UploadFile) (limit : Nat) (hlim : 1 ≤ limit) (s : MapState ZipEntry)
    (hreach : Reachable files limit (fun f _ => zipWorkerEntry enc opts f) s)
    (hterm : TerminalState s) :
    s.results.length = files.length ∧
    (∀ (j : Nat) (hj : j < files.length),
      s.results.get? j = some (some (zipWorkerEntry enc opts (files.get ⟨j, hj⟩)))) ∧
    (∀ (j : Nat) (hj : j < files.length) (e : String),
      convertBufferToWebp enc (files.get ⟨j, hj⟩).buffer opts = Except.error e →
      s.results.get? j = some (some
        { name := sanitizeFilename (parseName (jsOr (files.get ⟨j, hj⟩).originalname "image"))
            ++ "__ERROR.txt"
          content := EntryContent.text (jsOr e "Conversion failed") })) ∧
    (∀ (j : Nat) (hj : j < files.length) (b : List UInt8),
      convertBufferToWebp enc (files.get ⟨j, hj⟩).buffer opts = Except.ok b →
      s.results.get? j = some (some
        { name := changeExtToWebp (jsOr (files.get ⟨j, hj⟩).originalname "image.webp")
          content := EntryContent.bytes b })) := by
  have base := terminal_results hlim (mapInv_reachable hreach) hterm
  refine ⟨base.1, base.2, ?_, ?_⟩
  · intro j hj e he
    rw [base.2 j hj]
    simp only [List.get_eq_getElem] at he
    simp [zipWorkerEntry, he]
  · intro j hj b hb
    rw [base.2 j hj]
    simp only [List.get_eq_getElem] at hb
    simp [zipWorkerEntry, hb]

/-- Witness for the amended C2: a failing single-file batch yields the
error-marker entry. -/
theorem zipWorker_isolates_failures_witness :
    (singletonFinal sampleFile
        (fun f _ => zipWorkerEntry failEncoder sampleOpts f)).results.get? 0 =
      some (some
        { name := sanitizeFilename (parseName (jsOr sampleFile.originalname "image"))
            ++ "__ERROR.txt"
          content := EntryContent.text (jsOr "boom" "Conversion failed") }) :=
  (zipWorker_isolates_failures failEncoder sampleOpts [sampleFile] 1 (Nat.le_refl 1)
      (singletonFinal sampleFile (fun f _ => zipWorkerEntry failEncoder sampleOpts f))
      (reach_singleton sampleFile (fun f _ => zipWorkerEntry failEncoder sampleOpts f))
      (terminal_singleton sampleFile
        (fun f _ => zipWorkerEntry failEncoder sampleOpts f))).2.2.1
    0 Nat.one_pos "boom" rfl

/-- C3: with N ≥ 1 items and limit K ≥ 1, no reachable schedule of
`mapWithLimit` ever has more than K worker invocations in flight; when
K ≥ N there is a schedule in which all N items run concurrently; and when
K = 1 every reachable state has at most one invocation in flight
(effectively sequential execution). -/
theorem mapWithLimit_concurrency_bound {α β : Type} (items : List α) (limit : Nat)
    (mapper : α → Nat → β) (_hN : 1 ≤ items.length) (_hK : 1 ≤ limit) :
    (∀ s : MapState β, Reachable items limit mapper s → runningCount s ≤ limit) ∧
    (items.length ≤ limit →
      ∃ s : MapState β, Reachable items limit mapper s ∧
        runningCount s = items.length) ∧
    (limit = 1 → ∀ s : MapState β,
      Reachable items limit mapper s → runningCount s ≤ 1) := by
  refine ⟨fun s hs => runningCount_le hs, ?_, ?_⟩
  · intro hKN
    exact ⟨fullState items items.length,
      reach_fullState items limit mapper hKN items.length (Nat.le_refl _),
      runningCount_fullState items⟩
  · intro h1 s hs
    have h2 := runningCount_le hs
    omega

/-- Witness for C3: with one item and limit one, the all-running state is
reached. -/
theorem mapWithLimit_concurrency_bound_witness :
    ∃ s : MapState Nat, Reachable [0] 1 addMapper s ∧ runningCount s = 1 :=
  (mapWithLimit_concurrency_bound [0] 1 addMapper (Nat.le_refl 1)
    (Nat.le_refl 1)).2.1 (Nat.le_refl 1)

/-- C4: in the zip branch, a completed batch has appended exactly one archive
entry per item — the sanitized-output-name entry with the encoded bytes for a
success, the `<base>__ERROR.txt` entry with the failure message for a
failure — so N items give exactly N entries (in completion order, a
permutation of the input-order list), and `archive.finalize()` runs only
after `mapWithLimit` has returned, i.e. in a terminal state where every
entry is present. -/
theorem archive_entries_complete (enc : Encoder) (opts : ConvertOpts)
    (files : List UploadFile) (limit : Nat) (hlim : 1 ≤ limit) (s : MapState ZipEntry)
    (hreach : Reachable files limit (fun f _ => zipWorkerEntry enc opts f) s)
    (hterm : TerminalState s) :
    s.log.length = files.length ∧
    (s.log : Multiset ZipEntry) = (files.map (zipWorkerEntry enc opts) : Multiset ZipEntry) ∧
    (∀ f ∈ files, ∀ b, convertBufferToWebp enc f.buffer opts = Except.ok b →
      zipWorkerEntry enc opts f =
        { name := changeExtToWebp (jsOr f.originalname "image.webp")
          content := EntryContent.bytes b }) ∧
    (∀ f ∈ files, ∀ e, convertBufferToWebp enc f.buffer opts = Except.error e →
      zipWorkerEntry enc opts f =
        { name := sanitizeFilename (parseName (jsOr f.originalname "image")) ++ "__ERROR.txt"
          content := EntryContent.text (jsOr e "Conversion failed") }) := by
  have h := terminal_results_map hlim hreach hterm
  refine ⟨?_, ?_, ?_, ?_⟩
  · rw [h.2.length_eq, List.length_map]
  · exact Multiset.coe_eq_coe.mpr h.2
  · intro f _ b hb
    simp [zipWorkerEntry, hb]
  · intro f _ e he
    simp [zipWorkerEntry, he]

/-- Witness for C4: a successful single-file batch appends exactly one
entry. -/
theorem archive_entries_complete_witness :
    (singletonFinal sampleFile
        (fun f _ => zipWorkerEntry okEncoder sampleOpts f)).log.length =
      [sampleFile].length :=
  (archive_entries_complete okEncoder sampleOpts [sampleFile] 1 (Nat.le_refl 1)
    (singletonFinal sampleFile (fun f _ => zipWorkerEntry okEncoder sampleOpts f))
    (reach_singleton sampleFile (fun f _ => zipWorkerEntry okEncoder sampleOpts f))
    (terminal_singleton sampleFile
      (fun f _ => zipWorkerEntry okEncoder sampleOpts f))).1

/-! ## Quality resolution, health endpoint, lossless quality -/

/-- C7 counterexample: the query input `0` does not resolve to the default
80 — `clamp` clamps it to the declared minimum 1 (both at the `clamp` level
and through the handler's option resolution). -/
theorem quality_zero_not_default :
    clamp (some "0") 1 100 (some DEFAULT_QUALITY) = some 1 ∧
    clamp (some "0") 1 100 (some DEFAULT_QUALITY) ≠ some DEFAULT_QUALITY ∧
    (resolveOptions zeroQualityQuery).quality = some 1 := by decide

/-- C7 (amended): quality resolution maps `0` to the clamped minimum 1 (not
the default), `150` to the clamped maximum 100, non-numeric `abc` to the
default 80, and in-range `57` to itself. -/
theorem quality_resolution_spec :
    clamp (some "0") 1 100 (some DEFAULT_QUALITY) = some 1 ∧
    clamp (some "150") 1 100 (some DEFAULT_QUALITY) = some 100 ∧
    clamp (some "abc") 1 100 (some DEFAULT_QUALITY) = some DEFAULT_QUALITY ∧
    clamp (some "57") 1 100 (some DEFAULT_QUALITY) = some 57 := by decide

/-- C9 counterexample: the health body has no `uptimeSeconds` field — the
uptime is returned under the key `uptime`. -/
theorem health_no_uptimeSeconds_field :
    (healthHandler 5).1 = 200 ∧
    (healthHandler 5).2.lookup "uptimeSeconds" = none := by decide

/-- C9 (amended): every `GET /health` request returns status 200 with a JSON
body containing `ok: true` and a field `uptime` (not `uptimeSeconds`)
holding the process uptime, which is non-negative. -/
theorem health_response_spec (u : Int) (hu : 0 ≤ u) :
    (healthHandler u).1 = 200 ∧
    (healthHandler u).2.lookup "ok" = some (JsonVal.bool true) ∧
    (healthHandler u).2.lookup "uptime" = some (JsonVal.num u) ∧ 0 ≤ u :=
  ⟨rfl, rfl, rfl, hu⟩

/-- Witness for the amended C9. -/
theorem health_response_spec_witness :
    (healthHandler 5).1 = 200 ∧
    (healthHandler 5).2.lookup "ok" = some (JsonVal.bool true) ∧
    (healthHandler 5).2.lookup "uptime" = some (JsonVal.num 5) ∧ (0 : Int) ≤ 5 :=
  health_response_spec 5 (by decide)

/-- C10: whenever the resolved options have `lossless = true`, the quality
value in the option object actually handed to the encoder is 100, whatever
quality was stored in the shared options record (`quality: opts.lossless ?
100 : opts.quality`). -/
theorem lossless_forces_quality_100 (opts : ConvertOpts) (h : opts.lossless = true) :
    (webpOptionsOf opts).quality = some 100 ∧
    ∀ (enc : Encoder) (buffer : List UInt8),
      convertBufferToWebp enc buffer opts = enc buffer (webpOptionsOf opts) := by
  refine ⟨?_, fun enc buffer => rfl⟩
  simp [webpOptionsOf, h]

/-- Witness for C10: caller-supplied quality 57 with lossless on. -/
theorem lossless_forces_quality_100_witness :
    (webpOptionsOf
      { quality := some 57, lossless := true, nearLossless := false,
        alphaQuality := none, effort := some 4, smartSubsample := false }).quality =
      some 100 :=
  (lossless_forces_quality_100
    { quality := some 57, lossless := true, nearLossless := false,
      alphaQuality := none, effort := some 4, smartSubsample := false } rfl).1

/-! ## Multipart body structure -/

theorem multipartPart_eq (enc : Encoder) (opts : ConvertOpts) (boundary : String)
    (f : UploadFile) :
    (∃ buf, convertBufferToWebp enc f.buffer opts = Except.ok buf ∧
      multipartPart enc opts boundary f =
        [Chunk.str ("--" ++ boundary ++ "\r\n"),
         Chunk.str "Content-Type: image/webp\r\n",
         Chunk.str ("Content-Disposition: attachment; filename=\"" ++
           changeExtToWebp (jsOr f.originalname "image.webp") ++ "\"\r\n"),
         Chunk.str ("Content-Length: " ++ toString buf.length ++ "\r\n\r\n"),
         Chunk.bytes buf,
         Chunk.str "\r\n"]) ∨
    (∃ e, convertBufferToWebp enc f.buffer opts = Except.error e ∧
      multipartPart enc opts boundary f =
        [Chunk.str ("--" ++ boundary ++ "\r\n"),
         Chunk.str "Content-Type: text/plain; charset=utf-8\r\n",
         Chunk.str ("Content-Disposition: attachment; filename=\"" ++
           (sanitizeFilename (parseName (jsOr f.originalname "image")) ++ "__ERROR.txt") ++
           "\"\n"),
         Chunk.str ("Content-Length: " ++
           toString (jsOr e "Conversion failed").toUTF8.toList.length ++ "\r\n\r\n"),
         Chunk.bytes (jsOr e "Conversion failed").toUTF8.toList,
         Chunk.str "\r\n"]) := by
  cases hc : convertBufferToWebp enc f.buffer opts with
  | ok buf =>
    left
    exact ⟨buf, rfl, by simp [multipartPart, multipartWrites, hc]⟩
  | error e =>
    right
    exact ⟨e, rfl, by simp [multipartPart, multipartWrites, hc]⟩

theorem multipartWrites_eq_join (enc : Encoder) (opts : ConvertOpts) (boundary : String) :
    ∀ files : List UploadFile,
      multipartWrites enc opts boundary files =
        (files.map (multipartPart enc opts boundary)).join ++
          [Chunk.str ("--" ++ boundary ++ "--\r\n")]
  | [] => by simp [multipartWrites]
  | f :: fs => by
    have ih := multipartWrites_eq_join enc opts boundary fs
    rcases multipartPart_eq enc opts boundary f with ⟨buf, hc, hp⟩ | ⟨e, hc, hp⟩ <;>
      simp [multipartWrites, hc, hp, ih, List.append_assoc]

/-- C5: the multipart branch writes one part per file, in input order (the
body is the concatenation of the per-file parts followed by the closing
`--boundary--` delimiter, so part `i` is derived from `files[i]` no matter
when its conversion finishes), and every part consists of the boundary
delimiter line, a Content-Type header (`image/webp` on success,
`text/plain; charset=utf-8` on failure), a Content-Disposition header naming
the item's derived filename, a Content-Length header equal to the exact byte
count of the part body, a blank line, the body bytes, and a trailing CRLF. -/
theorem multipart_response_spec (enc : Encoder) (opts : ConvertOpts) (boundary : String)
    (files : List UploadFile) :
    multipartWrites enc opts boundary files =
      (files.map (multipartPart enc opts boundary)).join ++
        [Chunk.str ("--" ++ boundary ++ "--\r\n")] ∧
    ∀ f : UploadFile,
      (∃ buf, convertBufferToWebp enc f.buffer opts = Except.ok buf ∧
        multipartPart enc opts boundary f =
          [Chunk.str ("--" ++ boundary ++ "\r\n"),
           Chunk.str "Content-Type: image/webp\r\n",
           Chunk.str ("Content-Disposition: attachment; filename=\"" ++
             changeExtToWebp (jsOr f.originalname "image.webp") ++ "\"\r\n"),
           Chunk.str ("Content-Length: " ++ toString buf.length ++ "\r\n\r\n"),
           Chunk.bytes buf,
           Chunk.str "\r\n"]) ∨
      (∃ e, convertBufferToWebp enc f.buffer opts = Except.error e ∧
        multipartPart enc opts boundary f =
          [Chunk.str ("--" ++ boundary ++ "\r\n"),
           Chunk.str "Content-Type: text/plain; charset=utf-8\r\n",
           Chunk.str ("Content-Disposition: attachment; filename=\"" ++
             (sanitizeFilename (parseName (jsOr f.originalname "image")) ++ "__ERROR.txt") ++
             "\"\n"),
           Chunk.str ("Content-Length: " ++
             toString (jsOr e "Conversion failed").toUTF8.toList.length ++ "\r\n\r\n"),
           Chunk.bytes (jsOr e "Conversion failed").toUTF8.toList,
           Chunk.str "\r\n"]) :=
  ⟨multipartWrites_eq_join enc opts boundary files, multipartPart_eq enc opts boundary⟩

/-! ## Response-mode selection -/

/-- C6 counterexample: an unrecognized `output` value with exactly one file
is not rejected — the single-file condition
`!wantsZip && !wantsMultipart && files.length === 1` swallows it, the
conversion runs, and a Single response is returned instead of a 400. -/
theorem mode_bogus_single_counterexample :
    selectMode (some "bogus") 1 = ResponseMode.single ∧
    convertRespond okEncoder "b" bogusQuery [sampleFile] =
      ConvResponse.singleFile "photo.webp" [1, 2, 3] :=
  ⟨by decide, by decide⟩

/-- C6 (amended): one file with `output=auto` (or an absent or empty
`output`, both falsy in `req.query.output || 'auto'`) gives Single; more
than one file with `output=auto` (or absent/empty) gives Archive;
`output=zip` gives Archive and `output=multipart` gives Multipart for any
file count; an `output` value whose falsy-defaulted lower-casing is none of
`auto`/`zip`/`multipart` is rejected with the 400 `Invalid output mode`
response — before any conversion starts, as the response is a constant
independent of the encoder — only when more than one file is present; with
exactly one file such an unrecognized value falls into the Single branch. -/
theorem response_mode_selection :
    (selectMode (some "auto") 1 = ResponseMode.single ∧
      selectMode none 1 = ResponseMode.single ∧
      selectMode (some "") 1 = ResponseMode.single) ∧
    (∀ n : Nat, 1 < n → selectMode (some "auto") n = ResponseMode.archive ∧
      selectMode none n = ResponseMode.archive ∧
      selectMode (some "") n = ResponseMode.archive) ∧
    (∀ n : Nat, selectMode (some "zip") n = ResponseMode.archive) ∧
    (∀ n : Nat, selectMode (some "multipart") n = ResponseMode.multipart) ∧
    (∀ (o : String) (n : Nat), jsToLower (jsOr o "auto") ≠ "auto" →
      jsToLower (jsOr o "auto") ≠ "zip" → jsToLower (jsOr o "auto") ≠ "multipart" →
      1 < n → selectMode (some o) n = ResponseMode.reject) ∧
    (∀ o : String, jsToLower (jsOr o "auto") ≠ "zip" →
      jsToLower (jsOr o "auto") ≠ "multipart" →
      selectMode (some o) 1 = ResponseMode.single) ∧
    (∀ (enc : Encoder) (boundary : String) (q : Query) (files : List UploadFile),
      selectMode q.output files.length = ResponseMode.reject → files ≠ [] →
      convertRespond enc boundary q files =
        ConvResponse.badRequest "Invalid output mode") := by
  refine ⟨⟨by decide, by decide, by decide⟩, ?_, ?_, ?_, ?_, ?_, ?_⟩
  · intro n hn
    have ha : jsToLower (jsOr "auto" "auto") = "auto" := by decide
    have he : jsToLower (jsOr "" "auto") = "auto" := by decide
    have hne : n ≠ 1 := by omega
    refine ⟨?_, ?_, ?_⟩ <;> simp [selectMode, ha, he, hn, hne]
  · intro n
    have hz : jsToLower (jsOr "zip" "auto") = "zip" := by decide
    simp [selectMode, hz]
  · intro n
    have hm : jsToLower (jsOr "multipart" "auto") = "multipart" := by decide
    simp [selectMode, hm]
  · intro o n h1 h2 h3 hn
    have hne : n ≠ 1 := by omega
    simp [selectMode, h1, h2, h3, hne]
  · intro o h2 h3
    by_cases h1 : jsToLower (jsOr o "auto") = "auto" <;> simp [selectMode, h1, h2, h3]
  · intro enc boundary q files hsel hne
    cases files with
    | nil => exact absurd rfl hne
    | cons f rest =>
      simp only [convertRespond]
      rw [hsel]

/-- Witness for the amended C6: `output=bogus` with two files is rejected
without running the encoder. -/
theorem response_mode_selection_witness :
    selectMode (some "bogus") 2 = ResponseMode.reject ∧
    convertRespond failEncoder "b" bogusQuery [sampleFile, sampleFile] =
      ConvResponse.badRequest "Invalid output mode" := by
  constructor
  · exact (response_mode_selection).2.2.2.2.1 "bogus" 2 (by decide) (by decide)
      (by decide) (by decide)
  · exact (response_mode_selection).2.2.2.2.2.2 failEncoder "b" bogusQuery
      [sampleFile, sampleFile] (by decide) (by decide)

end WebpServer
